import Mathlib

/-!
Verification of the V-UPLOAD job-scheduling subsystem.

Shallow embedding of the repository's core logic:
* the Sequelize `Video` (Job) rows and their status machine,
* the `initDB` crash-recovery update,
* the `setInterval` scheduling loop (single-flight tick),
* the `DELETE /api/schedule/:id` handler,
* the client-side bulk schedule expander (`submitSchedule` in `App.jsx`),
* `generateMetadata` and `processUpload` with their internal try/catch structure.

External effects (the DB round-trips, the Drive/YouTube/Gemini calls, the
Discord webhook) are modelled by explicit result parameters of type
`Except String _`: `.ok` is a normal completion of the remote call, `.error`
a thrown/rejected one.  Timestamps are epoch seconds as natural numbers.
-/

namespace VUpload

/-- Job status values stored in the `status` column.  The source stores them
as the strings "Pending" / "Uploading" / "Done" / "Failed". -/
inductive Status where
  | Pending
  | Uploading
  | Done
  | Failed
deriving DecidableEq

/-- One row of the `Video` table (part_000 lines 32-44): a scheduled or
completed upload attempt.  `id` is the autoincrementing primary key. -/
structure Job where
  id : Nat
  driveFileId : String
  title : String
  description : String
  thumbnail : Option String
  firstComment : Option String
  tags : List String
  hashtags : List String
  scheduledTime : Nat
  status : Status
  youtubeId : Option String
  error : Option String
deriving DecidableEq

/-- The persistence store's Job table is a list of rows. -/
abbrev Store := List Job

/-- Primary keys are unique in the table. -/
def NodupIds (s : Store) : Prop := (s.map Job.id).Nodup

/-- Number of rows whose status is `Uploading`. -/
def countUploading (s : Store) : Nat :=
  s.countP (fun j => j.status == Status.Uploading)

/-- `Video.findOne({ where: { status: 'Uploading' } })` is truthy
(part_000 lines 372-373): some row is in flight. -/
def hasUploading (s : Store) : Bool :=
  s.any (fun j => j.status == Status.Uploading)

/-- `row.save()`: write the row back by primary key, leaving other rows
unchanged. -/
def saveJob (s : Store) (u : Job) : Store :=
  s.map (fun k => if k.id = u.id then u else k)

/-- The recovery rewrite applied to one row by
`Video.update({ status: 'Pending', error: 'Server restarted during upload' },
{ where: { status: 'Uploading' } })` (part_000 lines 65-68). -/
def recoverJob (j : Job) : Job :=
  if j.status = Status.Uploading then
    { j with status := Status.Pending, error := some "Server restarted during upload" }
  else j

/-- The crash-recovery step of `initDB` (part_000 lines 58-73): every
`Uploading` row is reset, all other rows are untouched. -/
def initDBRecovery (s : Store) : Store := s.map recoverJob

/-- The WHERE clause of the tick's second query (part_000 lines 375-381):
status `Pending` and `scheduledTime <= now`. -/
def duePendingB (now : Nat) (j : Job) : Bool :=
  j.status == Status.Pending && decide (j.scheduledTime ≤ now)

/-- Rows eligible for selection this tick. -/
def duePending (now : Nat) (s : Store) : Store := s.filter (duePendingB now)

/-- `findOne` with `order: [['scheduledTime', 'ASC']]`: the row with the
smallest `scheduledTime`, the earliest-listed one on ties. -/
def pickMin : List Job → Option Job
  | [] => none
  | j :: rest =>
    match pickMin rest with
    | none => some j
    | some b => if b.scheduledTime < j.scheduledTime then some b else some j

/-- The tick's selection query: earliest due `Pending` row, if any. -/
def findNextJob (now : Nat) (s : Store) : Option Job :=
  pickMin (duePending now s)

/-- The job row as mutated by the tick after the upload attempt
(part_000 lines 398-405): `Done` with the remote id and a cleared error on
success, `Failed` with the thrown error message on failure. -/
def jobAfterUpload (j : Job) (ur : Except String String) : Job :=
  match ur with
  | .ok ytId => { j with status := Status.Done, youtubeId := some ytId, error := none }
  | .error e => { j with status := Status.Failed, error := some e }

/-- `sendDiscordNotification` (part_000 lines 93-112): the webhook POST
outcome is `np`; a missing webhook URL returns early and a POST failure is
caught and logged inside the function, so the call never rejects. -/
def sendDiscordNotification (np : Except String Unit) : Except String Unit :=
  match np with
  | .ok _ => .ok ()
  | .error _ => .ok ()

/-- The inner try/catch of the tick around the upload (part_000 lines
388-408) followed by the unconditional `await nextJob.save()`.  `ur` is the
`processUpload` outcome, `np` the Discord webhook POST outcome.  The
exception plumbing is kept explicit: had the notification call rejected in
the success branch, the catch would have marked the job `Failed`; had it
rejected in the catch branch, the final save would have been skipped. -/
def tickFinish (s : Store) (j : Job) (ur : Except String String)
    (np : Except String Unit) : Store :=
  let attempt : Except String Job :=
    match ur with
    | .ok ytId =>
      match sendDiscordNotification np with
      | .ok _ => .ok { j with status := Status.Done, youtubeId := some ytId, error := none }
      | .error e2 => .error e2
    | .error e => .error e
  let handled : Except String Job :=
    match attempt with
    | .ok j1 => .ok j1
    | .error e =>
      match sendDiscordNotification np with
      | .ok _ => .ok { j with status := Status.Failed, error := some e }
      | .error e2 => .error e2
  match handled with
  | .ok j1 => saveJob s j1
  | .error _ => s

/-- One full pass of the scheduling loop body (part_000 lines 369-413):
skip if an upload is in flight; otherwise select the earliest due pending
job, persist it as `Uploading`, and only then run the upload and record its
outcome. -/
def tick (now : Nat) (s : Store) (ur : Except String String)
    (np : Except String Unit) : Store :=
  if hasUploading s then s
  else
    match findNextJob now s with
    | none => s
    | some j =>
      tickFinish (saveJob s { j with status := Status.Uploading })
        { j with status := Status.Uploading } ur np

/-- Body of `POST /api/schedule` (part_000 lines 300-313): the request
carries no status, so the row is created with the model default `Pending`
and empty `youtubeId` / `error`. -/
structure ScheduleReq where
  driveFileId : String
  title : String
  description : String
  thumbnail : Option String
  firstComment : Option String
  tags : List String
  hashtags : List String
  scheduledTime : Nat
deriving DecidableEq

/-- Largest primary key in the table. -/
def maxId (s : Store) : Nat := (s.map Job.id).foldr max 0

/-- The autoincremented primary key handed to a newly created row. -/
def freshId (s : Store) : Nat := maxId s + 1

/-- `Video.create` from a schedule request. -/
def mkJob (r : ScheduleReq) (newId : Nat) : Job :=
  { id := newId, driveFileId := r.driveFileId, title := r.title,
    description := r.description, thumbnail := r.thumbnail,
    firstComment := r.firstComment, tags := r.tags, hashtags := r.hashtags,
    scheduledTime := r.scheduledTime, status := Status.Pending,
    youtubeId := none, error := none }

/-- `DELETE /api/schedule/:id` (part_000 lines 358-366):
`Video.destroy({ where: { id, status: 'Pending' } })` removes exactly the
rows matching both the id and the `Pending` status. -/
def deleteSchedule (targetId : Nat) (s : Store) : Store :=
  s.filter (fun j => !(j.id == targetId && j.status == Status.Pending))

/-- First half of a tick, up to and including the first `save()`
(part_000 lines 371-386): the store state observable while the upload call
is still outstanding. -/
def tickSelectStore (now : Nat) (s : Store) : Store :=
  if hasUploading s then s
  else
    match findNextJob now s with
    | none => s
    | some j => saveJob s { j with status := Status.Uploading }

/-- Second half of a tick: the in-flight row (the one the loop closure
holds) receives the upload outcome and is saved. -/
def tickUploadEndStore (ur : Except String String) (np : Except String Unit)
    (s : Store) : Store :=
  match s.find? (fun j => j.status == Status.Uploading) with
  | none => s
  | some j => tickFinish s j ur np

/-- The store-mutating operations of the system's lifetime.  A tick is split
into its two observable halves so that the state while an upload is
outstanding is itself an observation point. -/
inductive Op where
  | create (r : ScheduleReq)
  | delete (targetId : Nat)
  | recover
  | tickSelect (now : Nat)
  | tickUploadEnd (ur : Except String String) (np : Except String Unit)

/-- Effect of one operation on the store. -/
def applyOp (op : Op) (s : Store) : Store :=
  match op with
  | .create r => s ++ [mkJob r (freshId s)]
  | .delete targetId => deleteSchedule targetId s
  | .recover => initDBRecovery s
  | .tickSelect now => tickSelectStore now s
  | .tickUploadEnd ur np => tickUploadEndStore ur np s

/-- Effect of a whole operation history. -/
def applyOps (ops : List Op) (s : Store) : Store :=
  ops.foldl (fun t op => applyOp op t) s

/-! Bulk schedule expander (`submitSchedule`, App.jsx lines 259-302).
Local time is modelled as epoch seconds in a fixed-offset calendar with no
DST, so a calendar day is exactly 86400 seconds; the epoch day (day 0) is a
Thursday, as in the JS `Date` epoch. -/

/-- `now.getDay()`: day of week, Sunday = 0. -/
def jsGetDay (t : Nat) : Nat := (t / 86400 + 4) % 7

/-- App.jsx lines 274-275: `let diff = dayIndex - now.getDay();
if (diff < 0) diff += 7;`. -/
def dayDiff (target cur : Nat) : Nat :=
  if target < cur then target + 7 - cur else target - cur

/-- App.jsx lines 276-277: the same-week candidate —
`date.setDate(now.getDate() + diff)` then
`date.setHours(hours, minutes, 0, 0)` (zero seconds and milliseconds). -/
def candidate (now d hh mm : Nat) : Nat :=
  (now / 86400 + dayDiff d (jsGetDay now)) * 86400 + hh * 3600 + mm * 60

/-- App.jsx line 280: `if (date <= now) date.setDate(date.getDate() + 7)`. -/
def nextOccurrence (now d hh mm : Nat) : Nat :=
  if candidate now d hh mm ≤ now then candidate now d hh mm + 7 * 86400
  else candidate now d hh mm

/-- The scheduling form state used by `submitSchedule`: the selected weekday
indices, the `HH:MM` times (already split into hour and minute as
`timeStr.split(':')` + `parseInt` do), and the shared metadata. -/
structure FormData where
  days : List Nat
  times : List (Nat × Nat)
  title : String
  description : String
  thumbnail : Option String
  firstComment : Option String
deriving DecidableEq

/-- One element of the `schedules` array POSTed to `/api/schedule/bulk`
(App.jsx lines 282-289). -/
structure BulkItem where
  driveFileId : String
  title : String
  description : String
  thumbnail : Option String
  firstComment : Option String
  scheduledTime : Nat
deriving DecidableEq

/-- `submitSchedule` (App.jsx lines 259-302): reject an empty day or time
selection before expansion (`none`); otherwise produce one request per
(day, time) pair of the cross product, in day-major order. -/
def submitSchedule (now : Nat) (selectedVideoId : String) (fd : FormData) :
    Option (List BulkItem) :=
  if fd.days = [] then none
  else if fd.times = [] then none
  else some (fd.days.flatMap (fun d => fd.times.map (fun tm =>
    { driveFileId := selectedVideoId, title := fd.title,
      description := fd.description, thumbnail := fd.thumbnail,
      firstComment := fd.firstComment,
      scheduledTime := nextOccurrence now d tm.1 tm.2 })))

/-! Metadata suggestion (`generateMetadata`): part_000 lines 114-144 and the
part_001 variant, lines 90-101.  The whole body sits in one try/catch; the
`aiResult` parameter is `.ok` when the Gemini call returned text that parsed
as the expected JSON, and `.error` when the call threw or `JSON.parse`
threw, both of which land in the same catch. -/

/-- The suggestion object of part_000. -/
structure Metadata where
  title : String
  description : String
  tags : List String
  hashtags : List String
deriving DecidableEq

/-- The suggestion object of part_001. -/
structure MetadataV1 where
  title : String
  description : String
deriving DecidableEq

/-- `generateMetadata` (part_000 lines 114-144).  Total: every failure of
the generative call or of parsing is caught and the deterministic fallback
is returned, so the operation never throws to its caller. -/
def generateMetadata (filename : String) (aiResult : Except String Metadata) :
    Metadata :=
  match aiResult with
  | .ok data => data
  | .error _ =>
    { title := filename, description := "Uploaded via V-UPLOAD AI",
      tags := ["automation", "uploader"],
      hashtags := ["#VUpload", "#Automation"] }

/-- `generateMetadata` (part_001 lines 90-101). -/
def generateMetadataV1 (filename : String)
    (aiResult : Except String MetadataV1) : MetadataV1 :=
  match aiResult with
  | .ok data => data
  | .error _ => { title := filename, description := "Uploaded via V-UPLOAD AI" }

/-! Upload pipeline (`processUpload`): part_000 lines 146-237 and the
part_001 variant, lines 103-190.  The Drive download, the videos.insert,
the thumbnails.set and the comment steps are external calls, passed in as
`Except` results.  Only the thumbnail and comment steps sit inside their own
try/catch; the earlier steps propagate. -/

/-- Characters after the first comma, `none` when no comma occurs. -/
def afterFirstComma : List Char → Option (List Char)
  | [] => none
  | c :: rest => if c = ',' then some rest else afterFirstComma rest

/-- Characters up to (excluding) the next comma. -/
def takeUntilComma : List Char → List Char
  | [] => []
  | c :: rest => if c = ',' then [] else c :: takeUntilComma rest

/-- `thumbnailData.split(',')[1]`: the segment between the first and second
comma (`undefined`, i.e. `none`, when the string has no comma). -/
def base64Segment (td : String) : Option (List Char) :=
  (afterFirstComma td.toList).map takeUntilComma

/-- What the pipeline run produced: the remote id the function returns plus
whether the two swallowed sub-steps actually took effect. -/
structure UploadResult where
  videoId : String
  thumbnailApplied : Bool
  commentPosted : Bool
deriving DecidableEq

/-- `processUpload` (part_000).  `tokens` is the stored token bundle
(`null` throws before any remote call), `driveRes` the Drive download,
`insertRes` the videos.insert (returning the new video id), `thumbRes` the
thumbnails.set call and `commentRes` the commentThreads.insert call.  The
thumbnail step runs only for a truthy `thumbnailData` whose
`split(',')[1]` is a truthy (nonempty) base64 payload; the comment step
only for a truthy (nonempty) `firstComment`.  Errors of those two steps are
caught, logged and dropped (lines 209-211 and 231-233). -/
def processUpload (thumbnailData firstComment : Option String)
    (tokens : Option String) (driveRes : Except String Unit)
    (insertRes : Except String String) (thumbRes : Except String Unit)
    (commentRes : Except String Unit) : Except String UploadResult :=
  match tokens with
  | none => .error "No tokens found. Please connect Google account."
  | some _ =>
    match driveRes with
    | .error e => .error e
    | .ok _ =>
      match insertRes with
      | .error e => .error e
      | .ok videoId =>
        let thumbnailApplied :=
          match thumbnailData with
          | none => false
          | some td =>
            match base64Segment td with
            | none => false
            | some b64 =>
              if b64 = [] then false
              else
                match thumbRes with
                | .ok _ => true
                | .error _ => false
        let commentPosted :=
          match firstComment with
          | none => false
          | some c =>
            if c.isEmpty then false
            else
              match commentRes with
              | .ok _ => true
              | .error _ => false
        .ok { videoId := videoId, thumbnailApplied := thumbnailApplied,
              commentPosted := commentPosted }

/-- Outcome of the part_001 pipeline, whose comment step also pins. -/
structure UploadResultV1 where
  videoId : String
  thumbnailApplied : Bool
  commentPinned : Bool
deriving DecidableEq

/-- `processUpload` (part_001 lines 103-190): same shape, with the comment
insert followed by `comments.setManagementStatus({ pin: true })` inside the
same try, so a failure of either is caught and dropped together
(lines 184-186). -/
def processUploadV1 (thumbnailData firstComment : Option String)
    (tokens : Option String) (driveRes : Except String Unit)
    (insertRes : Except String String) (thumbRes : Except String Unit)
    (commentRes : Except String String) (pinRes : Except String Unit) :
    Except String UploadResultV1 :=
  match tokens with
  | none => .error "No tokens found. Please connect Google account."
  | some _ =>
    match driveRes with
    | .error e => .error e
    | .ok _ =>
      match insertRes with
      | .error e => .error e
      | .ok videoId =>
        let thumbnailApplied :=
          match thumbnailData with
          | none => false
          | some td =>
            match base64Segment td with
            | none => false
            | some b64 =>
              if b64 = [] then false
              else
                match thumbRes with
                | .ok _ => true
                | .error _ => false
        let commentPinned :=
          match firstComment with
          | none => false
          | some c =>
            if c.isEmpty then false
            else
              match commentRes with
              | .error _ => false
              | .ok _ =>
                match pinRes with
                | .ok _ => true
                | .error _ => false
        .ok { videoId := videoId, thumbnailApplied := thumbnailApplied,
              commentPinned := commentPinned }

/-! Startup timing (part_000 lines 74 and 369-413).  `initDB()` is invoked
exactly once at module load, fire-and-forget: its promise is not awaited,
and `setInterval(..., 15000)` is registered during the same synchronous
module evaluation.  The first tick therefore fires one interval after
startup, while recovery completes only when the DB round-trips inside
`initDB` finish, after a duration the code does not constrain. -/

/-- The interval passed to `setInterval` (part_000 line 413), in ms. -/
def tickIntervalMs : Nat := 15000

/-- Time of the poller's first tick after process start. -/
def firstTickMs : Nat := tickIntervalMs

/-- Time at which the recovery update inside `initDB` has completed, as a
function of the unconstrained DB initialization duration. -/
def recoveryCompletionMs (dbInitMs : Nat) : Nat := dbInitMs

/-- The ordering the spec asserts: recovery completes before the poller's
first tick executes. -/
def recoveryBeforeFirstTick (dbInitMs : Nat) : Prop :=
  recoveryCompletionMs dbInitMs < firstTickMs

/-! Concrete fixtures used by counterexamples and witnesses. -/

/-- A row stuck in `Uploading`, as left by a crash mid-upload. -/
def jobU : Job :=
  { id := 1, driveFileId := "fileA", title := "clip", description := "",
    thumbnail := none, firstComment := none, tags := [], hashtags := [],
    scheduledTime := 50, status := Status.Uploading, youtubeId := none,
    error := none }

/-- A due `Pending` row. -/
def jobP : Job :=
  { id := 2, driveFileId := "fileB", title := "short", description := "d",
    thumbnail := none, firstComment := none, tags := [], hashtags := [],
    scheduledTime := 30, status := Status.Pending, youtubeId := none,
    error := none }

/-- A later-scheduled due `Pending` row. -/
def jobP2 : Job :=
  { id := 3, driveFileId := "fileC", title := "vlog", description := "",
    thumbnail := none, firstComment := none, tags := [], hashtags := [],
    scheduledTime := 40, status := Status.Pending, youtubeId := none,
    error := none }

/-- A terminal `Done` row. -/
def jobD : Job :=
  { id := 4, driveFileId := "fileD", title := "done", description := "",
    thumbnail := none, firstComment := none, tags := [], hashtags := [],
    scheduledTime := 10, status := Status.Done,
    youtubeId := some "ytD", error := none }

/-- A terminal `Failed` row. -/
def jobF : Job :=
  { id := 5, driveFileId := "fileE", title := "failed", description := "",
    thumbnail := none, firstComment := none, tags := [], hashtags := [],
    scheduledTime := 20, status := Status.Failed, youtubeId := none,
    error := some "boom" }

/-- A concrete schedule request. -/
def req0 : ScheduleReq :=
  { driveFileId := "fileZ", title := "new", description := "",
    thumbnail := none, firstComment := none, tags := [], hashtags := [],
    scheduledTime := 70 }

/-- A concrete filled-in scheduling form: two days, one time. -/
def fd0 : FormData :=
  { days := [1, 3], times := [(9, 0)], title := "t", description := "d",
    thumbnail := none, firstComment := none }

/-! Helper lemmas. -/

theorem countP_map_comp {α β : Type} (f : α → β) (p : β → Bool) (l : List α) :
    (l.map f).countP p = l.countP (fun a => p (f a)) := by
  induction l with
  | nil => rfl
  | cons a t ih => simp [List.countP_cons, ih]

theorem countP_congr_fun {α : Type} (l : List α) (p q : α → Bool)
    (h : ∀ a ∈ l, p a = q a) : l.countP p = l.countP q := by
  induction l with
  | nil => rfl
  | cons a t ih =>
    simp only [List.countP_cons]
    rw [ih (fun a ha => h a (List.mem_cons_of_mem _ ha)),
      h a (List.mem_cons_self a t)]

theorem countP_le_of_imp {α : Type} (l : List α) (p q : α → Bool)
    (h : ∀ a ∈ l, p a = true → q a = true) : l.countP p ≤ l.countP q := by
  induction l with
  | nil => simp
  | cons a t ih =>
    simp only [List.countP_cons]
    have ht := ih (fun a ha => h a (List.mem_cons_of_mem _ ha))
    by_cases hp : p a = true
    · rw [h a (List.mem_cons_self a t) hp, hp]
      simpa using ht
    · simp only [Bool.not_eq_true] at hp
      rw [hp]
      simp only [Bool.false_eq_true, if_false, Nat.add_zero]
      exact le_trans ht (by split <;> omega)

theorem countP_eq_zero_of_all_false {α : Type} (l : List α) (p : α → Bool)
    (h : ∀ a ∈ l, p a = false) : l.countP p = 0 := by
  induction l with
  | nil => rfl
  | cons a t ih =>
    simp only [List.countP_cons, h a (List.mem_cons_self a t),
      Bool.false_eq_true, if_false, Nat.add_zero]
    exact ih (fun a ha => h a (List.mem_cons_of_mem _ ha))

theorem countP_beq_id_le_one (l : List Nat) (h : l.Nodup) (i : Nat) :
    l.countP (fun a => a == i) ≤ 1 := by
  have := List.nodup_iff_count_le_one.mp h i
  simpa [List.count] using this

theorem mem_le_foldr_max (l : List Nat) : ∀ a ∈ l, a ≤ l.foldr max 0 := by
  induction l with
  | nil => intro a ha; cases ha
  | cons b t ih =>
    intro a ha
    rcases List.mem_cons.mp ha with h1 | h2
    · subst h1; exact le_max_left _ _
    · exact le_trans (ih a h2) (le_max_right _ _)

theorem hasUploading_false_all (s : Store) (h : hasUploading s = false) :
    ∀ j ∈ s, (j.status == Status.Uploading) = false := by
  intro j hj
  by_contra hne
  simp only [Bool.not_eq_false] at hne
  have : hasUploading s = true := List.any_eq_true.mpr ⟨j, hj, hne⟩
  rw [h] at this
  exact Bool.false_ne_true this

theorem hasUploading_false_count (s : Store) (h : hasUploading s = false) :
    countUploading s = 0 :=
  countP_eq_zero_of_all_false _ _ (hasUploading_false_all s h)

theorem pickMin_eq_none : ∀ l : List Job, pickMin l = none → l = [] := by
  intro l h
  cases l with
  | nil => rfl
  | cons a t =>
    exfalso
    simp only [pickMin] at h
    split at h
    · exact absurd h (by simp)
    · split at h <;> exact absurd h (by simp)

theorem pickMin_mem : ∀ (l : List Job) (j : Job), pickMin l = some j → j ∈ l := by
  intro l
  induction l with
  | nil => intro j h; exact absurd h (by simp [pickMin])
  | cons a t ih =>
    intro j h
    simp only [pickMin] at h
    split at h
    · obtain rfl : a = j := Option.some_inj.mp h
      exact List.mem_cons_self a t
    · rename_i b hpt
      split at h
      · obtain rfl : b = j := Option.some_inj.mp h
        exact List.mem_cons_of_mem a (ih b hpt)
      · obtain rfl : a = j := Option.some_inj.mp h
        exact List.mem_cons_self a t

theorem pickMin_min : ∀ (l : List Job) (j : Job), pickMin l = some j →
    ∀ k ∈ l, j.scheduledTime ≤ k.scheduledTime := by
  intro l
  induction l with
  | nil => intro j h; exact absurd h (by simp [pickMin])
  | cons a t ih =>
    intro j h k hk
    simp only [pickMin] at h
    split at h
    · rename_i hpt
      obtain rfl : a = j := Option.some_inj.mp h
      obtain rfl : t = [] := pickMin_eq_none t hpt
      rcases List.mem_cons.mp hk with h1 | h2
      · subst h1; exact le_refl _
      · cases h2
    · rename_i b hpt
      split at h
      · rename_i hcmp
        obtain rfl : b = j := Option.some_inj.mp h
        rcases List.mem_cons.mp hk with h1 | h2
        · subst h1; exact le_of_lt hcmp
        · exact ih b hpt k h2
      · rename_i hcmp
        obtain rfl : a = j := Option.some_inj.mp h
        have hab : a.scheduledTime ≤ b.scheduledTime := le_of_not_lt hcmp
        rcases List.mem_cons.mp hk with h1 | h2
        · subst h1; exact le_refl _
        · exact le_trans hab (ih b hpt k h2)

theorem findNextJob_spec (now : Nat) (s : Store) (j : Job)
    (h : findNextJob now s = some j) :
    j ∈ s ∧ j.status = Status.Pending ∧ j.scheduledTime ≤ now ∧
      ∀ k ∈ s, k.status = Status.Pending → k.scheduledTime ≤ now →
        j.scheduledTime ≤ k.scheduledTime := by
  have hmem := pickMin_mem _ _ h
  have hf := List.mem_filter.mp hmem
  have hb : duePendingB now j = true := hf.2
  simp only [duePendingB, Bool.and_eq_true, beq_iff_eq, decide_eq_true_eq] at hb
  refine ⟨hf.1, hb.1, hb.2, ?_⟩
  intro k hk hkp hkd
  refine pickMin_min _ _ h k (List.mem_filter.mpr ⟨hk, ?_⟩)
  simp [duePendingB, hkp, hkd]

theorem tickFinish_eq (s : Store) (j : Job) (ur : Except String String)
    (np : Except String Unit) :
    tickFinish s j ur np = saveJob s (jobAfterUpload j ur) := by
  cases ur <;> cases np <;> rfl

theorem saveJob_map_id (s : Store) (u : Job) :
    (saveJob s u).map Job.id = s.map Job.id := by
  induction s with
  | nil => rfl
  | cons a t ih =>
    simp only [saveJob, List.map_cons] at *
    rw [ih]
    by_cases h : a.id = u.id
    · simp [h]
    · simp [h]

theorem recoverJob_id (j : Job) : (recoverJob j).id = j.id := by
  unfold recoverJob; split <;> rfl

theorem recoverJob_not_uploading (j : Job) :
    ((recoverJob j).status == Status.Uploading) = false := by
  unfold recoverJob
  split
  · rfl
  · next h => simpa using h

theorem jobAfterUpload_not_uploading (j : Job) (ur : Except String String) :
    ((jobAfterUpload j ur).status == Status.Uploading) = false := by
  cases ur <;> rfl

theorem count_zero_all_false (s : Store) (h : countUploading s = 0) :
    ∀ j ∈ s, (j.status == Status.Uploading) = false := by
  intro j hj
  simp only [countUploading] at h
  have := List.countP_eq_zero.mp h j hj
  simpa using this

theorem countP_filter_le {α : Type} (l : List α) (p q : α → Bool) :
    (l.filter q).countP p ≤ l.countP p := by
  induction l with
  | nil => simp
  | cons a t ih =>
    rw [List.filter_cons]
    by_cases hq : q a = true
    · rw [if_pos hq]
      simp only [List.countP_cons]
      split <;> omega
    · rw [if_neg hq]
      simp only [List.countP_cons]
      split <;> omega

theorem countUploading_saveJob_le_one (s : Store) (u : Job)
    (hnd : NodupIds s) (h0 : countUploading s = 0) :
    countUploading (saveJob s u) ≤ 1 := by
  have hall := count_zero_all_false s h0
  have h1 : countUploading (saveJob s u) =
      s.countP (fun k => (if k.id = u.id then u else k).status == Status.Uploading) := by
    simp only [countUploading, saveJob]
    exact countP_map_comp _ _ s
  rw [h1]
  have h2 : s.countP (fun k => (if k.id = u.id then u else k).status == Status.Uploading)
      ≤ s.countP (fun k => k.id == u.id) := by
    apply countP_le_of_imp
    intro k hk hp
    by_cases hid : k.id = u.id
    · simp [hid]
    · rw [if_neg hid] at hp
      rw [hall k hk] at hp
      exact absurd hp (by simp)
  refine le_trans h2 ?_
  have h3 : s.countP (fun k => k.id == u.id) =
      (s.map Job.id).countP (fun a => a == u.id) :=
    (countP_map_comp Job.id (fun a => a == u.id) s).symm
  rw [h3]
  exact countP_beq_id_le_one _ hnd _

theorem countUploading_saveJob_finish_le (s : Store) (j : Job)
    (ur : Except String String) :
    countUploading (saveJob s (jobAfterUpload j ur)) ≤ countUploading s := by
  have h1 : countUploading (saveJob s (jobAfterUpload j ur)) =
      s.countP (fun k => (if k.id = (jobAfterUpload j ur).id then jobAfterUpload j ur else k).status
        == Status.Uploading) := by
    simp only [countUploading, saveJob]
    exact countP_map_comp _ _ s
  rw [h1]
  apply countP_le_of_imp
  intro k hk hp
  by_cases hid : k.id = (jobAfterUpload j ur).id
  · rw [if_pos hid, jobAfterUpload_not_uploading] at hp
    exact absurd hp (by simp)
  · rw [if_neg hid] at hp
    exact hp

theorem nodupIds_saveJob (s : Store) (u : Job) (h : NodupIds s) :
    NodupIds (saveJob s u) := by
  unfold NodupIds
  rw [saveJob_map_id]
  exact h

theorem nodupIds_filter (s : Store) (p : Job → Bool) (h : NodupIds s) :
    NodupIds (s.filter p) :=
  h.sublist (List.Sublist.map Job.id (List.filter_sublist s))

theorem map_id_recover (s : Store) :
    (s.map recoverJob).map Job.id = s.map Job.id := by
  induction s with
  | nil => rfl
  | cons a t ih => simp [recoverJob_id, ih]

theorem nodupIds_recover (s : Store) (h : NodupIds s) :
    NodupIds (initDBRecovery s) := by
  unfold NodupIds initDBRecovery
  rw [map_id_recover]
  exact h

theorem nodupIds_create (s : Store) (r : ScheduleReq) (h : NodupIds s) :
    NodupIds (s ++ [mkJob r (freshId s)]) := by
  unfold NodupIds at *
  rw [List.map_append]
  refine List.Nodup.append h (List.nodup_singleton _) ?_
  intro a ha hb
  have hle : a ≤ maxId s := mem_le_foldr_max _ a ha
  have hfr : a = freshId s := by simpa using hb
  simp only [freshId] at hfr
  omega

theorem countUploading_create (s : Store) (r : ScheduleReq) (n : Nat) :
    countUploading (s ++ [mkJob r n]) = countUploading s := by
  simp [countUploading, List.countP_append, List.countP_cons, mkJob]

theorem countUploading_recover (s : Store) :
    countUploading (initDBRecovery s) = 0 := by
  unfold countUploading initDBRecovery
  rw [countP_map_comp]
  exact countP_eq_zero_of_all_false _ _ (fun j _ => recoverJob_not_uploading j)

theorem inv_applyOp (op : Op) (s : Store)
    (h : NodupIds s ∧ countUploading s ≤ 1) :
    NodupIds (applyOp op s) ∧ countUploading (applyOp op s) ≤ 1 := by
  obtain ⟨hnd, hc⟩ := h
  cases op with
  | create r =>
    simp only [applyOp]
    exact ⟨nodupIds_create s r hnd, by rw [countUploading_create]; exact hc⟩
  | delete targetId =>
    simp only [applyOp, deleteSchedule]
    exact ⟨nodupIds_filter s _ hnd, le_trans (countP_filter_le s _ _) hc⟩
  | recover =>
    simp only [applyOp]
    exact ⟨nodupIds_recover s hnd, by rw [countUploading_recover]; omega⟩
  | tickSelect now =>
    simp only [applyOp, tickSelectStore]
    by_cases hU : hasUploading s = true
    · rw [if_pos hU]
      exact ⟨hnd, hc⟩
    · have hU' : hasUploading s = false := by simpa using hU
      rw [if_neg hU]
      cases hfind : findNextJob now s with
      | none => exact ⟨hnd, hc⟩
      | some j =>
        exact ⟨nodupIds_saveJob _ _ hnd,
          countUploading_saveJob_le_one s _ hnd (hasUploading_false_count s hU')⟩
  | tickUploadEnd ur np =>
    simp only [applyOp, tickUploadEndStore]
    cases hfind : s.find? (fun j => j.status == Status.Uploading) with
    | none => exact ⟨hnd, hc⟩
    | some j =>
      show NodupIds (tickFinish s j ur np) ∧ countUploading (tickFinish s j ur np) ≤ 1
      rw [tickFinish_eq]
      exact ⟨nodupIds_saveJob _ _ hnd,
        le_trans (countUploading_saveJob_finish_le s j ur) hc⟩

theorem inv_applyOps (ops : List Op) (s : Store)
    (h : NodupIds s ∧ countUploading s ≤ 1) :
    NodupIds (applyOps ops s) ∧ countUploading (applyOps ops s) ≤ 1 := by
  induction ops generalizing s with
  | nil => exact h
  | cons op rest ih =>
    simp only [applyOps, List.foldl_cons] at *
    exact ih _ (inv_applyOp op s h)

/-! Claim theorems. -/

/-- C1: starting from a store with unique primary keys and no `Uploading`
job, every history of scheduler ticks (both observable halves), recovery
runs, job creations and job deletions leaves at most one Job with status
`Uploading` — so at most one Job is `Uploading` at every observation point
of the system's lifetime. -/
theorem single_flight_invariant (ops : List Op) (s0 : Store)
    (hnd : NodupIds s0) (h0 : countUploading s0 = 0) :
    countUploading (applyOps ops s0) ≤ 1 :=
  (inv_applyOps ops s0 ⟨hnd, by omega⟩).2

theorem single_flight_invariant_witness :
    countUploading (applyOps
      [Op.create req0, Op.tickSelect 100,
       Op.tickUploadEnd (Except.ok "yt9") (Except.error "webhook down"),
       Op.recover, Op.delete 2]
      [jobP, jobD]) ≤ 1 :=
  single_flight_invariant
    [Op.create req0, Op.tickSelect 100,
     Op.tickUploadEnd (Except.ok "yt9") (Except.error "webhook down"),
     Op.recover, Op.delete 2]
    [jobP, jobD] (by unfold NodupIds; decide) (by decide)

/-- C2: on a tick, an in-flight job suppresses all work; otherwise the due
`Pending` job with the smallest `scheduledTime` (if any) is selected, is a
member of the store satisfying the due-pending query, and the tick equals
the adapter phase run on the store in which that job is already persisted
as `Uploading` — i.e. the `Uploading` status is saved before the Upload
Pipeline Adapter is invoked; with no in-flight and no due pending job the
tick changes nothing. -/
theorem scheduler_tick_spec :
    (∀ now s ur np, hasUploading s = true → tick now s ur np = s)
    ∧ (∀ now s ur np, hasUploading s = false → findNextJob now s = none →
        tick now s ur np = s)
    ∧ (∀ now s j, hasUploading s = false → findNextJob now s = some j →
        j ∈ s ∧ j.status = Status.Pending ∧ j.scheduledTime ≤ now ∧
        (∀ k ∈ s, k.status = Status.Pending → k.scheduledTime ≤ now →
          j.scheduledTime ≤ k.scheduledTime) ∧
        hasUploading (saveJob s { j with status := Status.Uploading }) = true ∧
        (∀ ur np, tick now s ur np =
          tickFinish (saveJob s { j with status := Status.Uploading })
            { j with status := Status.Uploading } ur np)) := by
  refine ⟨?_, ?_, ?_⟩
  · intro now s ur np h
    simp [tick, h]
  · intro now s ur np h hf
    simp [tick, h, hf]
  · intro now s j h hf
    obtain ⟨hmem, hp, hd, hmin⟩ := findNextJob_spec now s j hf
    refine ⟨hmem, hp, hd, hmin, ?_, ?_⟩
    · refine List.any_eq_true.mpr
        ⟨{ j with status := Status.Uploading }, ?_, by simp⟩
      simp only [saveJob]
      exact List.mem_map.mpr ⟨j, hmem, by simp⟩
    · intro ur np
      simp [tick, h, hf]

theorem scheduler_tick_spec_witness :
    jobP ∈ ([jobP2, jobP, jobD] : Store) ∧ jobP.status = Status.Pending ∧
      jobP.scheduledTime ≤ 100 ∧
      (∀ k ∈ ([jobP2, jobP, jobD] : Store), k.status = Status.Pending →
        k.scheduledTime ≤ 100 → jobP.scheduledTime ≤ k.scheduledTime) ∧
      hasUploading (saveJob [jobP2, jobP, jobD]
        { jobP with status := Status.Uploading }) = true ∧
      (∀ ur np, tick 100 [jobP2, jobP, jobD] ur np =
        tickFinish (saveJob [jobP2, jobP, jobD]
            { jobP with status := Status.Uploading })
          { jobP with status := Status.Uploading } ur np) :=
  scheduler_tick_spec.2.2 100 [jobP2, jobP, jobD] jobP (by decide) (by decide)

/-- C3: when the adapter succeeds the executed job is persisted as `Done`
with the returned remote id stored and `error` cleared; when the adapter
throws it is persisted as `Failed` with the error message stored; both hold
for every Discord webhook outcome, including a failing one, because the
notification swallows its own errors and the final save follows it
unconditionally.  A `Failed` (or any non-`Pending`) job is never selected
by a tick, so a failed job is never retried automatically. -/
theorem upload_outcome_recorded :
    (∀ s j ytId np, tickFinish s j (Except.ok ytId) np =
      saveJob s { j with status := Status.Done, youtubeId := some ytId, error := none })
    ∧ (∀ s j e np, tickFinish s j (Except.error e) np =
      saveJob s { j with status := Status.Failed, error := some e })
    ∧ (∀ now s j, findNextJob now s = some j → j.status = Status.Pending) := by
  refine ⟨?_, ?_, ?_⟩
  · intro s j ytId np
    cases np <;> rfl
  · intro s j e np
    cases np <;> rfl
  · intro now s j h
    exact (findNextJob_spec now s j h).2.1

theorem upload_outcome_recorded_witness :
    tickFinish [jobU] jobU (Except.ok "yt7") (Except.error "webhook down") =
      saveJob [jobU] { jobU with status := Status.Done, youtubeId := some "yt7", error := none } ∧
    jobP.status = Status.Pending :=
  ⟨upload_outcome_recorded.1 [jobU] jobU "yt7" (Except.error "webhook down"),
   upload_outcome_recorded.2.2 100 [jobP] jobP (by decide)⟩

theorem length_flatMap_const {α β : Type} (l : List α) (f : α → List β)
    (n : Nat) (h : ∀ a ∈ l, (f a).length = n) :
    (l.flatMap f).length = l.length * n := by
  induction l with
  | nil => simp
  | cons a t ih =>
    rw [List.flatMap_cons, List.length_append, h a (List.mem_cons_self a t),
      ih (fun a ha => h a (List.mem_cons_of_mem _ ha)), List.length_cons]
    ring

theorem nextOccurrence_future (now d hh mm : Nat) :
    now < nextOccurrence now d hh mm := by
  have hcand : (now / 86400) * 86400 ≤ candidate now d hh mm := by
    simp only [candidate]
    have h1 : (now / 86400) * 86400 ≤
        (now / 86400 + dayDiff d (jsGetDay now)) * 86400 :=
      Nat.mul_le_mul_right _ (Nat.le_add_right _ _)
    omega
  have hdm := Nat.div_add_mod now 86400
  have hlt : now % 86400 < 86400 := Nat.mod_lt _ (by norm_num)
  unfold nextOccurrence
  split
  · omega
  · omega

/-- C4: for a non-empty weekday selection and a non-empty time selection,
expansion succeeds and produces exactly `|days| * |times|` job-creation
requests, every one of which has a `scheduledTime` strictly after the
expansion instant. -/
theorem bulk_expansion_spec (now : Nat) (vid : String) (fd : FormData)
    (hdays : fd.days ≠ []) (htimes : fd.times ≠ [])
    (_hvalid : ∀ d ∈ fd.days, d < 7) :
    ∃ reqs, submitSchedule now vid fd = some reqs ∧
      reqs.length = fd.days.length * fd.times.length ∧
      ∀ r ∈ reqs, now < r.scheduledTime := by
  unfold submitSchedule
  rw [if_neg hdays, if_neg htimes]
  refine ⟨_, rfl, ?_, ?_⟩
  · exact length_flatMap_const _ _ _ (fun d _ => by rw [List.length_map])
  · intro r hr
    rcases List.mem_flatMap.mp hr with ⟨d, hd, hr2⟩
    rcases List.mem_map.mp hr2 with ⟨tm, htm, rfl⟩
    exact nextOccurrence_future now d tm.1 tm.2

theorem bulk_expansion_spec_witness :
    ∃ reqs, submitSchedule 1000000 "vid" fd0 = some reqs ∧
      reqs.length = fd0.days.length * fd0.times.length ∧
      ∀ r ∈ reqs, 1000000 < r.scheduledTime :=
  bulk_expansion_spec 1000000 "vid" fd0 (by decide) (by decide) (by decide)

/-- C5: the same-week candidate of a (day, time) pair adds exactly
`(targetDay - currentDay + 7) mod 7` days to the current date and sets the
target hour and minute with zero seconds; and whenever that candidate is
not strictly in the future the chosen timestamp is exactly seven days after
the candidate. -/
theorem single_pair_next_occurrence :
    (∀ t, t < 7 → ∀ c, c < 7 → dayDiff t c = (t + 7 - c) % 7)
    ∧ (∀ now d hh mm, candidate now d hh mm =
        (now / 86400 + dayDiff d (jsGetDay now)) * 86400 + hh * 3600 + mm * 60)
    ∧ (∀ now d hh mm, candidate now d hh mm ≤ now →
        nextOccurrence now d hh mm = candidate now d hh mm + 7 * 86400) := by
  refine ⟨by decide, fun now d hh mm => rfl, ?_⟩
  intro now d hh mm h
  unfold nextOccurrence
  rw [if_pos h]

theorem single_pair_next_occurrence_witness :
    dayDiff 1 2 = (1 + 7 - 2) % 7 ∧
    nextOccurrence 1000000 1 0 0 = candidate 1000000 1 0 0 + 7 * 86400 :=
  ⟨single_pair_next_occurrence.1 1 (by decide) 2 (by decide),
   single_pair_next_occurrence.2.2 1000000 1 0 0 (by decide)⟩

/-- C6 counterexample: the Recovery routine does reset an `Uploading` job
to `Pending`, but the diagnostic it writes is "Server restarted during
upload", not the "interrupted by restart" text the claim names. -/
theorem recovery_diagnostic_counterexample :
    jobU.status = Status.Uploading ∧
    (initDBRecovery [jobU]).map Job.error ≠ [some "interrupted by restart"] ∧
    (initDBRecovery [jobU]).map Job.error = [some "Server restarted during upload"] :=
  ⟨rfl, by decide, by decide⟩

/-- C6 (amended): the Recovery routine rewrites every Job with status
`Uploading` to status `Pending` with `error` set to the fixed diagnostic
"Server restarted during upload" (a non-null error text), leaves every
other Job unchanged, and a reset Job whose `scheduledTime` has passed
satisfies the due-pending predicate of the next tick's selection query, so
it is eligible for re-selection on the next due tick. -/
theorem recovery_resets_uploading :
    (∀ j : Job, j.status = Status.Uploading →
      recoverJob j = { j with status := Status.Pending, error := some "Server restarted during upload" } ∧
      (recoverJob j).error ≠ none)
    ∧ (∀ j : Job, j.status ≠ Status.Uploading → recoverJob j = j)
    ∧ (∀ s : Store, initDBRecovery s = s.map recoverJob)
    ∧ (∀ (now : Nat) (j : Job), j.status = Status.Uploading →
        j.scheduledTime ≤ now → duePendingB now (recoverJob j) = true) := by
  refine ⟨?_, ?_, fun s => rfl, ?_⟩
  · intro j h
    constructor
    · unfold recoverJob
      rw [if_pos h]
    · unfold recoverJob
      rw [if_pos h]
      simp
  · intro j h
    unfold recoverJob
    rw [if_neg h]
  · intro now j h hd
    unfold recoverJob
    rw [if_pos h]
    simp [duePendingB, hd]

theorem recovery_resets_uploading_witness :
    (recoverJob jobU = { jobU with status := Status.Pending, error := some "Server restarted during upload" } ∧
      (recoverJob jobU).error ≠ none) ∧
    recoverJob jobD = jobD ∧
    duePendingB 100 (recoverJob jobU) = true :=
  ⟨recovery_resets_uploading.1 jobU rfl,
   recovery_resets_uploading.2.1 jobD (by decide),
   recovery_resets_uploading.2.2.2 100 jobU rfl (by decide)⟩

/-- C7 (the code does not guarantee the claimed ordering): recovery is
invoked exactly once at startup, but fire-and-forget; the first tick fires
one 15000 ms interval after startup regardless of whether the DB
round-trips inside `initDB` have finished.  Whenever initialization takes
at least the interval (dbInitMs = 15000 is the boundary case), the first
tick executes before recovery completes; such a tick then observes the
stale `Uploading` row and does nothing. -/
theorem startup_race_first_tick :
    (¬ ∀ dbInitMs, recoveryBeforeFirstTick dbInitMs)
    ∧ recoveryBeforeFirstTick 14999
    ∧ ¬ recoveryBeforeFirstTick 15000
    ∧ (∀ now ur np, tick now [jobU] ur np = [jobU]) := by
  refine ⟨?_, ?_, ?_, ?_⟩
  · intro h
    have h15 := h 15000
    unfold recoveryBeforeFirstTick recoveryCompletionMs firstTickMs tickIntervalMs at h15
    omega
  · unfold recoveryBeforeFirstTick recoveryCompletionMs firstTickMs tickIntervalMs
    omega
  · unfold recoveryBeforeFirstTick recoveryCompletionMs firstTickMs tickIntervalMs
    omega
  · intro now ur np
    have h : hasUploading [jobU] = true := by decide
    simp [tick, h]

/-- C8: the delete handler removes a row only when it is `Pending`: a
`Pending` row with the requested id is removed, every `Done` or `Failed`
row survives any delete request, and when no `Pending` row carries the
requested id the store — hence its row count — is unchanged. -/
theorem delete_only_pending :
    (∀ s targetId, deleteSchedule targetId s =
      s.filter (fun j => !(j.id == targetId && j.status == Status.Pending)))
    ∧ (∀ s targetId (j : Job), j ∈ s → j.id = targetId →
        j.status = Status.Pending → j ∉ deleteSchedule targetId s)
    ∧ (∀ s targetId (j : Job), j ∈ s →
        (j.status = Status.Done ∨ j.status = Status.Failed) →
        j ∈ deleteSchedule targetId s)
    ∧ (∀ s targetId, (∀ j ∈ s, j.id = targetId → j.status ≠ Status.Pending) →
        deleteSchedule targetId s = s) := by
  refine ⟨fun s i => rfl, ?_, ?_, ?_⟩
  · intro s i j hj hid hp hmem
    have hkeep := (List.mem_filter.mp hmem).2
    simp [hid, hp] at hkeep
  · intro s i j hj hst
    refine List.mem_filter.mpr ⟨hj, ?_⟩
    rcases hst with h | h <;> simp [h]
  · intro s i h
    apply List.filter_eq_self.mpr
    intro j hj
    by_cases hid : j.id = i
    · have hs := h j hj hid
      simp [hid, hs]
    · simp [hid]

theorem delete_only_pending_witness :
    jobP ∉ deleteSchedule 2 [jobP, jobD, jobF] ∧
    jobD ∈ deleteSchedule 4 [jobP, jobD, jobF] ∧
    jobF ∈ deleteSchedule 5 [jobP, jobD, jobF] ∧
    deleteSchedule 4 [jobP, jobD, jobF] = [jobP, jobD, jobF] :=
  ⟨delete_only_pending.2.1 [jobP, jobD, jobF] 2 jobP (by decide) rfl rfl,
   delete_only_pending.2.2.1 [jobP, jobD, jobF] 4 jobD (by decide) (Or.inl rfl),
   delete_only_pending.2.2.1 [jobP, jobD, jobF] 5 jobF (by decide) (Or.inr rfl),
   delete_only_pending.2.2.2 [jobP, jobD, jobF] 4 (by decide)⟩

/-- C9: the metadata suggestion is a total function of the AI outcome — it
never throws to its caller — and on every failure of the underlying
generative call (a throw or unparseable output, both landing in the same
catch) it returns exactly the deterministic fallback whose title is the
filename and whose description is the fixed default string (the part_000
variant additionally fills the fixed default tag and hashtag lists). -/
theorem metadata_fallback :
    (∀ filename e, generateMetadataV1 filename (Except.error e) =
      { title := filename, description := "Uploaded via V-UPLOAD AI" })
    ∧ (∀ filename e, generateMetadata filename (Except.error e) =
      { title := filename, description := "Uploaded via V-UPLOAD AI",
        tags := ["automation", "uploader"],
        hashtags := ["#VUpload", "#Automation"] })
    ∧ (∀ filename e, (generateMetadata filename (Except.error e)).title = filename ∧
        (generateMetadata filename (Except.error e)).description = "Uploaded via V-UPLOAD AI") :=
  ⟨fun _ _ => rfl, fun _ _ => rfl, fun _ _ => ⟨rfl, rfl⟩⟩

/-- C10: once the videos.insert step has succeeded, the pipeline returns
the remote video id whatever the thumbnail-set and comment post/pin steps
do — their errors are swallowed inside the function — so a Job can be
marked `Done` while its custom thumbnail or its pinned first comment was
never applied, as the concrete run with a failing thumbnails.set and a
failing commentThreads.insert shows. -/
theorem pipeline_swallows_substep_errors :
    (∀ td fc tok vid tr cr, ∃ r,
      processUpload td fc (some tok) (Except.ok ()) (Except.ok vid) tr cr = Except.ok r ∧
      r.videoId = vid)
    ∧ (∀ td fc tok vid tr cr pr, ∃ r,
      processUploadV1 td fc (some tok) (Except.ok ()) (Except.ok vid) tr cr pr = Except.ok r ∧
      r.videoId = vid)
    ∧ processUpload (some "data:image/jpeg;base64,QUFB") (some "pin me") (some "tok")
        (Except.ok ()) (Except.ok "vid123") (Except.error "quota exceeded")
        (Except.error "comments disabled")
      = Except.ok { videoId := "vid123", thumbnailApplied := false, commentPosted := false }
    ∧ tickFinish [jobU] jobU (Except.ok "vid123") (Except.ok ()) =
        [{ jobU with status := Status.Done, youtubeId := some "vid123", error := none }] := by
  refine ⟨?_, ?_, by rfl, by decide⟩
  · intro td fc tok vid tr cr
    exact ⟨_, rfl, rfl⟩
  · intro td fc tok vid tr cr pr
    exact ⟨_, rfl, rfl⟩

end VUpload
